import Mathlib

/-!
Verification of the node-pdf-to-markdown conversion pipeline.

This file gives a shallow embedding of the repository code that the
claims concern: the entry point `pdf2md` (option parsing, title
resolution, result shape), the `ToMarkdown` transformation (image
processing, page text assembly, console logging), the
`DetectCodeQuoteBlocks`, `DetectHeaders` and `DetectListItems`
transformations, and the `combineText` word merger of `LineConverter`.

Coordinates are rationals; JavaScript strings are Lean strings; byte
buffers are lists of naturals; JavaScript `null`/`undefined` is `Option`.
-/

namespace PdfToMd

/-! ## Decimal rendering of JavaScript numbers

JavaScript template literals render a natural number in decimal.  The
fuel-based recursion mirrors repeated division by ten and computes by
reduction. -/

/-- Decimal digit character for a value `d < 10`. -/
def digitChar (d : Nat) : Char :=
  match d with
  | 0 => '0' | 1 => '1' | 2 => '2' | 3 => '3' | 4 => '4'
  | 5 => '5' | 6 => '6' | 7 => '7' | 8 => '8' | _ => '9'

/-- Decimal digits of `n`, given enough fuel (any fuel above `n` works). -/
def natDigitsAux : Nat → Nat → List Char
  | 0, _ => []
  | fuel + 1, n =>
    if n < 10 then [digitChar n]
    else natDigitsAux fuel (n / 10) ++ [digitChar (n % 10)]

/-- Decimal rendering of a natural number, as a JavaScript template
literal renders it. -/
def natToStr (n : Nat) : String := ⟨natDigitsAux (n + 1) n⟩

/-- Value of a digit string, used to reason about `natToStr`. -/
def digitsVal (cs : List Char) : Nat :=
  cs.foldl (fun a c => 10 * a + (c.toNat - 48)) 0

/-! ## JavaScript primitives -/

/-- JavaScript `a || b` for a possibly missing string `a` with string
default `b`: `null`, `undefined` and the empty string are falsy. -/
def jsOrString (o : Option String) (d : String) : String :=
  match o with
  | some s => if s = "" then d else s
  | none => d

/-- JavaScript `a || null` for a possibly missing string: the empty
string collapses to `null`. -/
def jsOrNull (o : Option String) : Option String :=
  match o with
  | some s => if s = "" then none else some s
  | none => none

/-- JavaScript truthiness of a possibly missing string. -/
def jsTruthyStr : Option String → Bool
  | some s => s ≠ ""
  | none => false

/-- JavaScript rendering of a boolean, as in a template literal. -/
def jsBoolStr (b : Bool) : String := if b then "true" else "false"

/-- JavaScript `x > m` where `m` may be `null`: `null` coerces to `0`. -/
def jsGtNull (x : ℚ) : Option ℚ → Bool
  | some m => x > m
  | none => x > 0

/-- JavaScript `x === m` where `m` may be `null`: strict equality of a
number with `null` is always false. -/
def jsStrictEqNull (x : ℚ) : Option ℚ → Bool
  | some m => x = m
  | none => false

/-- JavaScript `s.endsWith(" ")`: the last character is a space. -/
def strEndsWithSpace (s : String) : Bool :=
  match s.data.getLast? with
  | some c => c = ' '
  | none => false

/-- JavaScript `s.startsWith(" ")`: the first character is a space. -/
def strStartsWithSpace (s : String) : Bool :=
  match s.data.head? with
  | some c => c = ' '
  | none => false

/-! ## Missing utility module `util/string-functions`

The repository ships only the callers of these helpers; the module
itself is not under `src/`. -/

/-- Modelled from the spec: `isListItemCharacter` of the missing
`util/string-functions` module recognises a single bullet word; §4.5
lists `-` together with the bullet characters
`•`, `·`, `●`, `◦`, `○`, `▪`, `■`, `□`, `*`, `+`. -/
def isListItemCharacter (s : String) : Bool :=
  s = "-" ∨ s = "•" ∨ s = "·" ∨ s = "●" ∨ s = "◦" ∨ s = "○" ∨
  s = "▪" ∨ s = "■" ∨ s = "□" ∨ s = "*" ∨ s = "+"

/-- Modelled from the spec: `isNumberedListItem` of the missing
`util/string-functions` module recognises a numbered-list start such as
`1.`, `2)` or `三、`. -/
def isNumberedListItem (s : String) : Bool :=
  (match s.data.dropWhile Char.isDigit with
   | c :: _ => (s.data.takeWhile Char.isDigit ≠ []) ∧ (c = '.' ∨ c = ')')
   | [] => False) ||
  (match s.data with
   | c :: d :: _ =>
     (c ∈ ['一', '二', '三', '四', '五', '六', '七', '八', '九', '十']) ∧ d = '、'
   | _ => False)

/-! ## Data model

Tagged variants for the pipeline item kinds the claims touch. -/

/-- Markdown block type (`models/markdown/BlockType.js`). -/
inductive BlockTypeE
  | H1 | H2 | H3 | H4 | H5 | H6
  | TOC | FOOTNOTES | CODE | LIST | TABLE | PARAGRAPH
deriving DecidableEq

/-- Annotation (`models/Annotation.js`). -/
inductive AnnotationE
  | ADDED | REMOVED | DETECTED
deriving DecidableEq

/-- A word of a line (`models/Word.js`): glyph string, optional word
type name and optional format name. -/
structure WordE where
  string : String
  wordType : Option String
  format : Option String
deriving DecidableEq

/-- A line item (`models/LineItem.js`): position, size, words, optional
block type and annotation. -/
structure LineE where
  x : ℚ
  y : ℚ
  width : ℚ
  height : ℚ
  words : List WordE
  type : Option BlockTypeE
  annot : Option AnnotationE
deriving DecidableEq

/-- An image item (`models/ImageItem.js`): position, size, optional
decoded bytes, declared format and synthetic name. -/
structure ImageItemE where
  x : ℚ
  y : ℚ
  width : ℚ
  height : ℚ
  imageData : Option (List Nat)
  imageFormat : Option String
  imageName : Option String
deriving DecidableEq

/-- Modelled from the spec: `LineItem.text()` (the `LineItem.js` module
is not under `src/`) joins the word strings with single spaces. -/
def lineText (l : LineE) : String :=
  String.intercalate " " (l.words.map (fun w => w.string))

/-! ## LineConverter.combineText

Embedding of `combineText` in `models/LineConverter.js` (lines
178-199): text runs of a stash are concatenated, inserting a space
before a run whose X-gap to the previous run exceeds 5 when neither the
accumulated text ends in a space nor the new text starts with one. -/

/-- A positioned text run (`models/TextItem.js`). -/
structure TextItemE where
  x : ℚ
  y : ℚ
  width : ℚ
  height : ℚ
  text : String
deriving DecidableEq

/-- One step of the `combineText` loop: state is the accumulated text
and the previous run. -/
def combineStep (acc : String × Option TextItemE) (textItem : TextItemE) :
    String × Option TextItemE :=
  let text := acc.1
  let textToAdd := textItem.text
  let p : String × String :=
    if ¬ strEndsWithSpace text ∧ ¬ strStartsWithSpace textToAdd then
      match acc.2 with
      | some lastItem =>
        if textItem.x - lastItem.x - lastItem.width > 5 then (text ++ " ", textToAdd)
        else (text, textToAdd)
      | none =>
        if isListItemCharacter textItem.text then (text, textToAdd ++ " ")
        else (text, textToAdd)
    else (text, textToAdd)
  (p.1 ++ p.2, some textItem)

/-- Embedding of `combineText` (`models/LineConverter.js` 178-199). -/
def combineText (textItems : List TextItemE) : String :=
  (textItems.foldl combineStep ("", none)).1

/-- The space condition of claim C6, written from the words of the
spec: a space is inserted iff the X-gap exceeds 5 units, or the
previous text does not end in a space and the next does not start with
one.  Kept separate from `combineText` for comparison. -/
def specC6SpaceCondition (prev next : TextItemE) : Prop :=
  next.x - prev.x - prev.width > 5 ∨
  (¬ strEndsWithSpace prev.text ∧ ¬ strStartsWithSpace next.text)

/-! ## DetectListItems

Embedding of the per-line classification loop of
`DetectListItems.transform` (`src/unnamed/part_006` lines 33-61).  The
loop pushes every line and, for a line whose first word is a bullet
other than `-`, additionally pushes a synthetic `-`-prefixed copy. -/

/-- Lines contributed to `newItems` by a single input line. -/
def processListLine (item : LineE) : List LineE :=
  if item.type ≠ none then [item]
  else
    match item.words with
    | w :: ws =>
      if isListItemCharacter w.string then
        if w.string = "-" then
          [{ item with annot := some .DETECTED, type := some .LIST }]
        else
          [{ item with annot := some .REMOVED },
           { item with words := { w with string := "-" } :: ws,
                       annot := some .ADDED, type := some .LIST }]
      else if isNumberedListItem (lineText item) then
        [{ item with annot := some .DETECTED, type := some .LIST }]
      else [item]
    | [] =>
      if isNumberedListItem (lineText item) then
        [{ item with annot := some .DETECTED, type := some .LIST }]
      else [item]

/-- The `newItems` list built by the `DetectListItems` line loop. -/
def detectListItemsLines (items : List LineE) : List LineE :=
  items.foldl (fun acc item => acc ++ processListLine item) []

/-! ## DetectCodeQuoteBlocks

Embedding of `DetectCodeQuoteBlocks.transform` and
`looksLikeCodeBlock` (`DetectCodeQuoteBlocks.js` lines 16-58) together
with `minXFromBlocks` of `util/page-item-functions.js`. -/

/-- A block of lines (`models/LineItemBlock.js`). -/
structure BlockE where
  type : Option BlockTypeE
  annot : Option AnnotationE
  items : List LineE
deriving DecidableEq

/-- A page item at the block stage: an image or a block. -/
inductive BlockPageItemE
  | image (item : ImageItemE)
  | block (b : BlockE)
deriving DecidableEq

/-- A page at the block stage. -/
structure BlockPageE where
  index : Nat
  items : List BlockPageItemE
deriving DecidableEq

/-- The non-image blocks of a page, as filtered by the transform. -/
def pageBlocks (page : BlockPageE) : List BlockE :=
  page.items.filterMap (fun it =>
    match it with
    | .block b => some b
    | .image _ => none)

/-- Embedding of `minXFromBlocks` (`util/page-item-functions.js`): the
running minimum starts at the sentinel 999 and `null` is returned when
it never drops below the sentinel. -/
def minXFromBlocks (blocks : List BlockE) : Option ℚ :=
  let minX := blocks.foldl (fun m b => b.items.foldl (fun m it => min m it.x) m) 999
  if minX = 999 then none else some minX

/-- Embedding of `looksLikeCodeBlock` (`DetectCodeQuoteBlocks.js`
45-58).  `minX` may be `null`; the JavaScript comparisons `x > null`
and `x === null` are embedded by `jsGtNull` and `jsStrictEqNull`. -/
def looksLikeCodeBlock (minX : Option ℚ) (items : List LineE) (mostUsedHeight : ℚ) : Bool :=
  match items with
  | [] => false
  | [item0] => jsGtNull item0.x minX ∧ item0.height ≤ mostUsedHeight + 1
  | _ :: _ :: _ => items.all (fun item => ¬ jsStrictEqNull item.x minX)

/-- Embedding of the per-page body of `DetectCodeQuoteBlocks.transform`:
`minX` is computed over all non-image blocks, and every untyped block
that looks like code is marked `CODE` with the detected annotation. -/
def detectCodePage (mostUsedHeight : ℚ) (page : BlockPageE) : BlockPageE :=
  let minX := minXFromBlocks (pageBlocks page)
  { page with
    items := page.items.map (fun it =>
      match it with
      | .image i => .image i
      | .block b =>
        if b.type = none ∧ looksLikeCodeBlock minX b.items mostUsedHeight then
          .block { b with annot := some .DETECTED, type := some .CODE }
        else .block b) }

/-- Embedding of `DetectCodeQuoteBlocks.transform` over all pages. -/
def detectCodeQuoteBlocks (mostUsedHeight : ℚ) (pages : List BlockPageE) : List BlockPageE :=
  pages.map (detectCodePage mostUsedHeight)

/-- The code-block condition of claim C3, written from the words of the
spec with `minX` the plain smallest x: kept separate from
`looksLikeCodeBlock` for comparison. -/
def specC3CodeCondition (minX : ℚ) (mostUsedHeight : ℚ) (items : List LineE) : Prop :=
  (items.length = 1 ∧ ∀ it ∈ items, it.x > minX ∧ it.height ≤ mostUsedHeight + 1) ∨
  (2 ≤ items.length ∧ ∀ it ∈ items, it.x ≠ minX)

/-- The smallest x over the lines of a list of blocks, written from the
words of the spec (no sentinel): kept separate from `minXFromBlocks`
for comparison. -/
def specMinXFromBlocks (blocks : List BlockE) : Option ℚ :=
  match (blocks.foldl (fun acc b => acc ++ b.items.map (fun it => it.x)) []) with
  | [] => none
  | x :: xs => some (xs.foldl min x)

/-! ## DetectHeaders: fontSize clustering and level assignment

Embedding of `clusterHeadersByFontSize` (`src/unnamed/part_005` lines
272-307) and the level-assignment loop of `DetectHeaders.transform`
(lines 90-106), applied to the retained (score-filtered) candidates. -/

/-- Configuration values of `util/style-detection-config.js`. -/
def headerMaxLevel : Nat := 4

/-- Minimum fontSize over body-fontSize quotient of the configuration. -/
def fontSizeGate : ℚ := 115 / 100

/-- Embedding of `headlineByLevel` (`models/markdown/BlockType.js`
286-305); levels outside 1-6 fall back to H6 (the source also logs a
warning there). -/
def headlineByLevel (level : Nat) : BlockTypeE :=
  if level = 1 then .H1
  else if level = 2 then .H2
  else if level = 3 then .H3
  else if level = 4 then .H4
  else if level = 5 then .H5
  else if level = 6 then .H6
  else .H6

/-- The fontSize group keys built by `clusterHeadersByFontSize`: each
candidate joins the first existing group within tolerance 0.5, else
opens a new group keyed by its height (group members are never read
downstream, so only the keys are kept). -/
def clusterKeys (items : List LineE) : List ℚ :=
  items.foldl (fun keys it =>
    if keys.any (fun k => |k - it.height| < 1 / 2) then keys
    else keys ++ [it.height]) []

/-- Stable insertion into a list sorted descending by the second
component, as `Array.prototype.sort` with comparator
`(a, b) => b.2 - a.2` leaves equal elements in encounter order. -/
def insertQuotDesc (x : ℚ × ℚ) : List (ℚ × ℚ) → List (ℚ × ℚ)
  | [] => [x]
  | y :: ys => if y.2 ≥ x.2 then y :: insertQuotDesc x ys else x :: y :: ys

/-- Stable descending sort by second component. -/
def sortQuotDesc (l : List (ℚ × ℚ)) : List (ℚ × ℚ) :=
  l.foldl (fun acc x => insertQuotDesc x acc) []

/-- Embedding of `sortedSizes` of `clusterHeadersByFontSize`: the keys
paired with their fontSize quotient, gate-filtered and sorted
descending. -/
def sortedSizes (keys : List ℚ) (mostUsedHeight : ℚ) : List (ℚ × ℚ) :=
  sortQuotDesc ((keys.map (fun size => (size, size / mostUsedHeight))).filter
    (fun sr => sr.2 ≥ fontSizeGate))

/-- Level assignment of `clusterHeadersByFontSize`: the entry at sorted
position `i` (counted from `i0`) receives level `min (i + 1) maxLevel`. -/
def levelsFrom (maxLevel : Nat) : Nat → List (ℚ × ℚ) → List (ℚ × Nat)
  | _, [] => []
  | i, sr :: rest => (sr.1, min (i + 1) maxLevel) :: levelsFrom maxLevel (i + 1) rest

/-- Embedding of the map returned by `clusterHeadersByFontSize`, in its
iteration (insertion) order. -/
def fontSizeToLevel (candidates : List LineE) (mostUsedHeight : ℚ) (maxLevel : Nat) :
    List (ℚ × Nat) :=
  levelsFrom maxLevel 0 (sortedSizes (clusterKeys candidates) mostUsedHeight)

/-- Embedding of the assignment loop of `DetectHeaders.transform`
(lines 98-106): for each map entry in order, every still-untyped
candidate within 0.5 of the entry key receives the headline type. -/
def assignPass (levels : List (ℚ × Nat)) (items : List LineE) : List LineE :=
  levels.foldl (fun its kl =>
    its.map (fun it =>
      if it.type = none ∧ |it.height - kl.1| < 1 / 2 then
        { it with type := some (headlineByLevel kl.2), annot := some .DETECTED }
      else it)) items

/-- The assignment loop restricted to a single candidate. -/
def assignOne (levels : List (ℚ × Nat)) (it : LineE) : LineE :=
  levels.foldl (fun it kl =>
    if it.type = none ∧ |it.height - kl.1| < 1 / 2 then
      { it with type := some (headlineByLevel kl.2), annot := some .DETECTED }
    else it) it

/-- Embedding of the clustering-plus-assignment stage of
`DetectHeaders.transform` (lines 90-106) on the retained candidates:
clusters are formed from the still-untyped candidates and levels are
assigned to all of them. -/
def detectHeaderLevels (candidates : List LineE) (mostUsedHeight : ℚ) : List LineE :=
  assignPass
    (fontSizeToLevel (candidates.filter (fun it => it.type = none)) mostUsedHeight headerMaxLevel)
    candidates

/-- Index of the first element satisfying a predicate, used to state
the extensional behaviour of the assignment loop. -/
def firstMatchIdx (p : α → Prop) [DecidablePred p] : List α → Option Nat
  | [] => none
  | x :: xs => if p x then some 0 else (firstMatchIdx p xs).map Nat.succ

/-! ## ToMarkdown and the entry point

Embedding of `ToMarkdown.js` and `pdf2md.js`.  The transformation
carries a document-wide state: the image counter, the relative-mode
image map (as an association list in insertion order), the emitted
image names, the console output and the save-mode file writes. -/

/-- PNG magic-number check of `ToMarkdown.processImage` (line 193). -/
def isPNGBytes : List Nat → Bool
  | b0 :: b1 :: b2 :: b3 :: _ => b0 = 0x89 ∧ b1 = 0x50 ∧ b2 = 0x4E ∧ b3 = 0x47
  | _ => false

/-- JPEG magic-number check of `ToMarkdown.processImage` (line 194). -/
def isJPEGBytes : List Nat → Bool
  | b0 :: b1 :: _ => b0 = 0xFF ∧ b1 = 0xD8
  | _ => false

/-- Embedding of `ToMarkdown.isValidImageFormat` (lines 141-163). -/
def isValidImageFormat (imageData : List Nat) (expectedFormat : String) : Bool :=
  if imageData.length < 4 then false
  else
    let isPNG := imageData.getD 0 0 = 0x89 ∧ imageData.getD 1 0 = 0x50 ∧
                 imageData.getD 2 0 = 0x4E ∧ imageData.getD 3 0 = 0x47
    let isJPEG := imageData.getD 0 0 = 0xFF ∧ imageData.getD 1 0 = 0xD8
    if expectedFormat = "png" then isPNG
    else if expectedFormat = "jpg" ∨ expectedFormat = "jpeg" then isJPEG
    else isPNG ∨ isJPEG

/-- Base64 alphabet, embedding `Buffer.toString` with base64 encoding. -/
def base64CharAt (i : Nat) : Char :=
  ("ABCDEFGHIJKLMNOPQRSTUVWXYZabcdefghijklmnopqrstuvwxyz0123456789+/").data.getD i 'A'

/-- Base64 encoding of a byte buffer, embedding the Node
`Buffer.toString` call of the base64 image mode. -/
def base64Encode : List Nat → List Char
  | [] => []
  | [b1] => [base64CharAt (b1 / 4), base64CharAt (b1 % 4 * 16), '=', '=']
  | [b1, b2] => [base64CharAt (b1 / 4), base64CharAt (b1 % 4 * 16 + b2 / 16),
                 base64CharAt (b2 % 16 * 4), '=']
  | b1 :: b2 :: b3 :: rest =>
    [base64CharAt (b1 / 4), base64CharAt (b1 % 4 * 16 + b2 / 16),
     base64CharAt (b2 % 16 * 4 + b3 / 64), base64CharAt (b3 % 64)] ++ base64Encode rest

/-- Base64 string of a byte buffer. -/
def base64String (bs : List Nat) : String := ⟨base64Encode bs⟩

/-- The image name template of `ToMarkdown.processImage` (line 203). -/
def nameOf (pdfTitle : String) (counter pageNum : Nat) (fmt : String) : String :=
  pdfTitle ++ "_image" ++ natToStr counter ++ "_p" ++ natToStr pageNum ++ "." ++ fmt

/-- Result of one `processImage` call: the updated counter, the
returned markdown, the relative-mode map entry, the save-mode file
write, and the image name used in the emitted reference. -/
structure ProcessImageOut where
  counter : Nat
  md : Option String
  mapEntry : Option (String × List Nat)
  fileWrite : Option (String × List Nat)
  name : Option String
deriving DecidableEq

/-- Embedding of `ToMarkdown.processImage` (lines 165-237).  Byte
buffers are already lists of bytes, so the source branches that convert
a `Uint8Array` or a base64 string to a `Buffer` collapse to the
identity; the initial pre-detection `imageName` of line 177 is unused
in the source and omitted. -/
def processImage (imageMode : String) (imageSavePath : Option String)
    (pdfTitle : String) (counter : Nat) (item : ImageItemE) (pageIndex : Nat) :
    ProcessImageOut :=
  if imageMode = "none" then ⟨counter, none, none, none, none⟩
  else
    match item.imageData with
    | none => ⟨counter, none, none, none, none⟩
    | some imageData =>
      let c := counter + 1
      let isPNG := isPNGBytes imageData
      let isJPEG := isJPEGBytes imageData
      if ¬ isPNG ∧ ¬ isJPEG then ⟨c, none, none, none, none⟩
      else
        let detectedFormat := if isPNG then "png" else "jpg"
        let finalImageName := nameOf pdfTitle c (pageIndex + 1) detectedFormat
        if ¬ isValidImageFormat imageData detectedFormat then ⟨c, none, none, none, none⟩
        else if imageMode = "base64" then
          let mimeType := if detectedFormat = "jpg" ∨ detectedFormat = "jpeg"
            then "image/jpeg" else "image/png"
          ⟨c, some ("![" ++ finalImageName ++ "](data:" ++ mimeType ++ ";base64," ++
              base64String imageData ++ ")"),
           none, none, some finalImageName⟩
        else if imageMode = "relative" then
          ⟨c, some ("![" ++ finalImageName ++ "](./" ++ finalImageName ++ ")"),
           some (finalImageName, imageData), none, some finalImageName⟩
        else if imageMode = "save" ∧ jsTruthyStr imageSavePath then
          ⟨c, some ("![" ++ finalImageName ++ "](" ++ finalImageName ++ ")"),
           none, some (jsOrString imageSavePath "" ++ "/" ++ finalImageName, imageData),
           some finalImageName⟩
        else ⟨c, none, none, none, none⟩

/-- Text block handed to `ToMarkdown` by `ToTextBlocks`. -/
structure TextBlockE where
  category : String
  text : String
deriving DecidableEq

/-- A page item at the markdown stage. -/
inductive MdItemE
  | image (item : ImageItemE)
  | block (b : TextBlockE)
deriving DecidableEq

/-- A page at the markdown stage. -/
structure MdPageE where
  index : Nat
  items : List MdItemE
deriving DecidableEq

/-- The image detection of `ToMarkdown.transform` (lines 38-73): in the
typed embedding the instance, `imageData` and `imageName` checks
coincide with the `image` variant. -/
def isImageItem : MdItemE → Bool
  | .image _ => true
  | .block _ => false

/-- First image item of a page, used by the debug log of line 52. -/
def firstImageItem (items : List MdItemE) : Option ImageItemE :=
  items.findSome? (fun it =>
    match it with
    | .image i => some i
    | .block _ => none)

/-- Document-wide state of the `ToMarkdown` transformation. -/
structure MdState where
  counter : Nat
  images : List (String × List Nat)
  names : List String
  logs : List String
  writes : List (String × List Nat)
deriving DecidableEq

/-- Initial `ToMarkdown` state (constructor and lines 20-22). -/
def initMdState : MdState := ⟨0, [], [], [], []⟩

/-- Observable part of the markdown state: everything except the
internal image counter. -/
def MdState.obs (st : MdState) :
    List (String × List Nat) × List String × List String × List (String × List Nat) :=
  (st.images, st.names, st.logs, st.writes)

/-- Entry of the `pageItems` list of `ToMarkdown.transform`. -/
inductive MdPageItemOut
  | image (content : String)
  | block (b : TextBlockE)
deriving DecidableEq

/-- Embedding of the item-separation loop of `ToMarkdown.transform`
(lines 57-91): images are processed (dropped when `processImage`
returns nothing) and blocks are kept. -/
def processMdItem (imageMode : String) (imageSavePath : Option String)
    (pdfTitle : String) (pageIndex : Nat)
    (acc : MdState × List MdPageItemOut) (item : MdItemE) :
    MdState × List MdPageItemOut :=
  match item with
  | .image it =>
    let r := processImage imageMode imageSavePath pdfTitle acc.1.counter it pageIndex
    ({ acc.1 with
        counter := r.counter,
        images := acc.1.images ++ r.mapEntry.toList,
        names := acc.1.names ++ r.name.toList,
        writes := acc.1.writes ++ r.fileWrite.toList },
     acc.2 ++ (r.md.map MdPageItemOut.image).toList)
  | .block b => (acc.1, acc.2 ++ [MdPageItemOut.block b])

/-- JavaScript `replace(/(\r\n|\n|\r)/gm, " ")`: every line break
becomes a single space. -/
def replaceNewlines : List Char → List Char
  | [] => []
  | '\r' :: '\n' :: rest => ' ' :: replaceNewlines rest
  | '\n' :: rest => ' ' :: replaceNewlines rest
  | '\r' :: rest => ' ' :: replaceNewlines rest
  | c :: rest => c :: replaceNewlines rest

/-- JavaScript `split("- ").join("")`: every occurrence of `- ` is
removed, scanning left to right. -/
def removeDashSpace : List Char → List Char
  | [] => []
  | '-' :: ' ' :: rest => removeDashSpace rest
  | c :: rest => c :: removeDashSpace rest

/-- JavaScript `split("`").join("")`: every backtick is removed. -/
def removeBackticks : List Char → List Char
  | [] => []
  | '`' :: rest => removeBackticks rest
  | c :: rest => c :: removeBackticks rest

/-- Embedding of the per-block text assembly of `ToMarkdown.transform`
(lines 98-117). -/
def renderBlockText (b : TextBlockE) : String :=
  let t1 : String := if b.category = "TOC" then b.text else ⟨replaceNewlines b.text.data⟩
  let t2 : String := if b.category ≠ "LIST" then ⟨removeDashSpace t1.data⟩ else t1
  if b.category = "CODE" then ⟨removeBackticks t2.data⟩ else t2

/-- Embedding of the text loop of `ToMarkdown.transform` (lines
94-119): the page items, each followed by a blank line. -/
def renderPageText (outs : List MdPageItemOut) : String :=
  outs.foldl (fun t o =>
    match o with
    | .image s => t ++ s ++ "\n\n"
    | .block b => t ++ renderBlockText b ++ "\n\n") ""

/-- Embedding of the debug logging of `ToMarkdown.transform` (lines
38-54): when a page holds image items, two console lines are printed.
In the embedding image items are `ImageItem` instances, so the logged
constructor name is the literal `ImageItem`. -/
def pageLogs (page : MdPageE) : List String :=
  let detectedImages := (page.items.filter isImageItem).length
  if detectedImages > 0 then
    ["ToMarkdown: Page " ++ natToStr (page.index + 1) ++ " has " ++
       natToStr detectedImages ++ " ImageItems before processing"] ++
    (match firstImageItem page.items with
     | some firstImg =>
       ["  First ImageItem: constructor=ImageItem, has imageData=" ++
          jsBoolStr firstImg.imageData.isSome ++ ", has imageName=" ++
          jsBoolStr (jsTruthyStr firstImg.imageName)]
     | none => [])
  else []

/-- Embedding of the per-page body of `ToMarkdown.transform`: logs,
item processing, text assembly.  The returned string is the single
element the transform leaves in `page.items`. -/
def processMdPage (imageMode : String) (imageSavePath : Option String)
    (pdfTitle : String) (st : MdState) (page : MdPageE) : MdState × String :=
  let st1 : MdState := { st with logs := st.logs ++ pageLogs page }
  let r := page.items.foldl (processMdItem imageMode imageSavePath pdfTitle page.index) (st1, [])
  (r.1, renderPageText r.2)

/-- Embedding of `ToMarkdown.transform` over all pages: final state and
the per-page markdown strings. -/
def toMarkdown (imageMode : String) (imageSavePath : Option String)
    (pdfTitle : String) (pages : List MdPageE) : MdState × List String :=
  pages.foldl (fun acc page =>
    let r := processMdPage imageMode imageSavePath pdfTitle acc.1 page
    (r.1, acc.2 ++ [r.2])) (initMdState, [])

/-! ## Entry point pdf2md -/

/-- Caller options object of `pdf2md` (`pdf2md.js` lines 14-34).
Functions are modelled by presence: `callbacks` by a unit option, the
four legacy callback properties by booleans. -/
structure OptionsE where
  callbacks : Option Unit
  metadataParsed : Bool
  pageParsed : Bool
  fontParsed : Bool
  documentParsed : Bool
  imageMode : Option String
  imageSavePath : Option String
  pdfTitle : Option String
deriving DecidableEq

/-- Outcome of the option parsing of `pdf2md` (lines 34-50). -/
structure ParsedOptions where
  legacyCallbacks : Bool
  imageMode : String
  imageSavePath : Option String
  pdfTitle : Option String
deriving DecidableEq

/-- Embedding of the option parsing of `pdf2md` (lines 34-50): an
options object with a legacy callback property and no `callbacks`
property is treated as the callbacks bundle itself and all image
options keep their defaults. -/
def parseOptions (options : OptionsE) : ParsedOptions :=
  if options.callbacks = none ∧
      (options.metadataParsed ∨ options.pageParsed ∨ options.fontParsed ∨
        options.documentParsed) then
    { legacyCallbacks := true, imageMode := "none", imageSavePath := none, pdfTitle := none }
  else
    { legacyCallbacks := false,
      imageMode := jsOrString options.imageMode "none",
      imageSavePath := jsOrNull options.imageSavePath,
      pdfTitle := jsOrNull options.pdfTitle }

/-- Sanitisation of a metadata title character (`pdf2md.js` line 58):
characters outside `[a-zA-Z0-9一-龥]` become underscores. -/
def sanitizeTitleChar (c : Char) : Char :=
  if ('a' ≤ c ∧ c ≤ 'z') ∨ ('A' ≤ c ∧ c ≤ 'Z') ∨ ('0' ≤ c ∧ c ≤ '9') ∨
      (0x4e00 ≤ c.toNat ∧ c.toNat ≤ 0x9fa5) then c
  else '_'

/-- Embedding of the title resolution of `pdf2md` (lines 55-63): the
caller title, else the sanitised metadata title truncated to 50
characters, else `pdf`. -/
def resolveTitle (pdfTitle : Option String) (metaTitle : Option String) : String :=
  let t : Option String :=
    match pdfTitle with
    | some s => some s
    | none =>
      match metaTitle with
      | some mt => if mt = "" then none else some ⟨(mt.data.map sanitizeTitleChar).take 50⟩
      | none => none
  match t with
  | some s => if s = "" then "pdf" else s
  | none => "pdf"

/-- A parsed document as handed to the transformations: the pages at
the markdown stage and the optional metadata title.  Parsing itself
(the external PDF library) is outside the embedding. -/
structure ParsedDocE where
  pages : List MdPageE
  metaTitle : Option String
deriving DecidableEq

/-- Return value of `pdf2md` (lines 70-83): a bare page array, or a
record of pages and the image map when the mode is `relative`. -/
inductive Pdf2mdResult
  | pagesOnly (markdown : List String)
  | withImages (markdown : List String) (images : List (String × List Nat))
deriving DecidableEq

/-- Embedding of `pdf2md` after document parsing (lines 34-83).  The
source has no failure exit after a successful parse; the `Except` layer
makes the absence of configuration errors visible.  Every transformed
page carries the single markdown string produced by `ToMarkdown`, so
the per-page `items.join` of line 72 is that string itself. -/
def pdf2md (options : OptionsE) (doc : ParsedDocE) : Except String Pdf2mdResult :=
  let po := parseOptions options
  let pdfTitle := resolveTitle po.pdfTitle doc.metaTitle
  let r := toMarkdown po.imageMode po.imageSavePath pdfTitle doc.pages
  if po.imageMode = "relative" then .ok (.withImages r.2 r.1.images)
  else .ok (.pagesOnly r.2)

/-- Invariant of the emitted image names: each carries a counter value
bounded by the running counter, the counters strictly increase along
the emission order, and the page number and format are well formed. -/
def NamesInv (t : String) (c : Nat) (names : List String) : Prop :=
  ∃ meta : List (Nat × Nat × String),
    names = meta.map (fun m => nameOf t m.1 m.2.1 m.2.2) ∧
    (meta.map Prod.fst).Pairwise (· < ·) ∧
    ∀ m ∈ meta, m.1 ≤ c ∧ (m.2.2 = "png" ∨ m.2.2 = "jpg")

/-- The image-name pattern of claim C7, written from the words of the
spec: `^{prefix}_image\d+_p\d+\.(png|jpg)$`. -/
def ImageNamePattern (pre : String) (name : String) : Prop :=
  ∃ d1 d2 ext : String,
    name = pre ++ "_image" ++ d1 ++ "_p" ++ d2 ++ "." ++ ext ∧
    d1 ≠ "" ∧ (∀ c ∈ d1.data, c.isDigit) ∧
    d2 ≠ "" ∧ (∀ c ∈ d2.data, c.isDigit) ∧
    (ext = "png" ∨ ext = "jpg")

/-! # Theorems -/

/-- Appending the empty string on the left is the identity. -/
theorem str_empty_append (s : String) : "" ++ s = s := by
  cases s
  rfl

/-- The empty string does not end with a space. -/
theorem strEndsWithSpace_empty : strEndsWithSpace "" = false := rfl

/-- Evaluation of `combineText` on a pair of runs whose first run is
not a bullet word. -/
theorem combineText_pair_eval (a b : TextItemE) (h : isListItemCharacter a.text = false) :
    combineText [a, b] =
      if b.x - a.x - a.width > 5 ∧ strEndsWithSpace a.text = false ∧
          strStartsWithSpace b.text = false
      then a.text ++ " " ++ b.text
      else a.text ++ b.text := by
  have hstep1 : combineStep ("", none) a = ("" ++ a.text, some a) := by
    cases hsa : strStartsWithSpace a.text <;>
      simp [combineStep, hsa, h, strEndsWithSpace_empty]
  have hstep1' : combineStep ("", none) a = (a.text, some a) := by
    rw [hstep1, str_empty_append]
  show (combineStep (combineStep ("", none) a) b).1 = _
  rw [hstep1']
  cases he : strEndsWithSpace a.text <;> cases hs : strStartsWithSpace b.text <;>
    by_cases hg : b.x - a.x - a.width > 5 <;>
      simp [combineStep, he, hs, hg]

/-- Claim C6 (amended): merging two runs inserts a space exactly when
the X-gap exceeds 5 units AND the previous text does not end in a space
AND the next text does not start with one (the source checks the
space conditions and the gap conjunctively); stated for a run pair
whose first run is not a bullet word. -/
theorem c6_space_insertion (a b : TextItemE) (h : isListItemCharacter a.text = false) :
    combineText [a, b] =
      if b.x - a.x - a.width > 5 ∧ strEndsWithSpace a.text = false ∧
          strStartsWithSpace b.text = false
      then a.text ++ " " ++ b.text
      else a.text ++ b.text :=
  combineText_pair_eval a b h

/-- Witness for `c6_space_insertion` at a concrete run pair with a
large gap. -/
theorem c6_space_insertion_witness :
    combineText [⟨0, 0, 1, 1, "a"⟩, ⟨10, 0, 1, 1, "b"⟩] = "a b" := by
  rw [c6_space_insertion ⟨0, 0, 1, 1, "a"⟩ ⟨10, 0, 1, 1, "b"⟩ rfl]
  rw [if_pos]
  · rfl
  · exact ⟨by norm_num, rfl, rfl⟩

/-- Counterexample to claim C6 as stated: for two adjacent runs `a`
and `b` with gap 0 and no surrounding spaces, the claimed disjunctive
condition holds, yet the source inserts no space. -/
theorem c6_counterexample :
    specC6SpaceCondition ⟨0, 0, 1, 1, "a"⟩ ⟨1, 0, 1, 1, "b"⟩ ∧
    combineText [⟨0, 0, 1, 1, "a"⟩, ⟨1, 0, 1, 1, "b"⟩] = "ab" ∧
    ("ab" : String) ≠ "a b" := by
  refine ⟨Or.inr ⟨by decide, by decide⟩, ?_, by decide⟩
  rw [combineText_pair_eval ⟨0, 0, 1, 1, "a"⟩ ⟨1, 0, 1, 1, "b"⟩ rfl]
  rw [if_neg]
  · rfl
  · rintro ⟨hgap, -⟩
    norm_num at hgap

/-- Claim C9: contrary to the specification, the markdown emission
step prints to the console.  On a page containing one image item the
transform writes two debug lines to stdout (`ToMarkdown.js` lines
46-54), in every image mode including `none`. -/
theorem c9_console_output :
    (toMarkdown "none" none "pdf"
        [⟨0, [.image ⟨0, 0, 1, 1, some [255, 216, 0, 0], some "jpg", some "image1"⟩]⟩]).1.logs =
      ["ToMarkdown: Page 1 has 1 ImageItems before processing",
       "  First ImageItem: constructor=ImageItem, has imageData=true, has imageName=true"] ∧
    (toMarkdown "none" none "pdf"
        [⟨0, [.image ⟨0, 0, 1, 1, some [255, 216, 0, 0], some "jpg", some "image1"⟩]⟩]).1.logs ≠
      [] := by
  constructor
  · rfl
  · decide

/-- Claim C10: an options object with a legacy callback property and
no `callbacks` property is treated as the callbacks bundle: the parsed
configuration has image mode `none`, no save path and no title, and the
conversion result is the plain page array of a `none`-mode run. -/
theorem c10_legacy_callbacks (options : OptionsE)
    (h1 : options.callbacks = none)
    (h2 : options.metadataParsed ∨ options.pageParsed ∨ options.fontParsed ∨
      options.documentParsed) :
    parseOptions options =
      { legacyCallbacks := true, imageMode := "none", imageSavePath := none,
        pdfTitle := none } ∧
    ∀ doc : ParsedDocE,
      pdf2md options doc =
        .ok (.pagesOnly (toMarkdown "none" none (resolveTitle none doc.metaTitle) doc.pages).2) := by
  have hpo : parseOptions options =
      { legacyCallbacks := true, imageMode := "none", imageSavePath := none,
        pdfTitle := none } := by
    simp [parseOptions, h1, h2]
  refine ⟨hpo, fun doc => ?_⟩
  simp [pdf2md, hpo]

/-- Witness for `c10_legacy_callbacks`: an options object carrying a
legacy `pageParsed` property together with `imageMode`, `imageSavePath`
and `pdfTitle` fields, all of which are ignored. -/
theorem c10_legacy_callbacks_witness :
    parseOptions ⟨none, false, true, false, false, some "relative", some "out", some "T"⟩ =
      { legacyCallbacks := true, imageMode := "none", imageSavePath := none,
        pdfTitle := none } ∧
    ∀ doc : ParsedDocE,
      pdf2md ⟨none, false, true, false, false, some "relative", some "out", some "T"⟩ doc =
        .ok (.pagesOnly (toMarkdown "none" none (resolveTitle none doc.metaTitle) doc.pages).2) :=
  c10_legacy_callbacks _ rfl (Or.inr (Or.inl rfl))

/-- Page-count lemma: the markdown emission produces one string per
page. -/
theorem toMarkdown_length (imageMode : String) (imageSavePath : Option String)
    (pdfTitle : String) (pages : List MdPageE) :
    (toMarkdown imageMode imageSavePath pdfTitle pages).2.length = pages.length := by
  suffices h : ∀ (ps : List MdPageE) (st : MdState) (acc : List String),
      (ps.foldl (fun acc page =>
        let r := processMdPage imageMode imageSavePath pdfTitle acc.1 page
        (r.1, acc.2 ++ [r.2])) (st, acc)).2.length = acc.length + ps.length by
    simpa [toMarkdown] using h pages initMdState []
  intro ps
  induction ps with
  | nil => simp
  | cons p ps ih =>
    intro st acc
    simp only [List.foldl_cons]
    rw [ih]
    simp
    omega

/-- Claim C1: the entry point returns a per-page array of markdown
strings; the image map is included exactly when the parsed image mode
is `relative`, and in every other mode only the page array is
returned. -/
theorem c1_result_shape (options : OptionsE) (doc : ParsedDocE) :
    pdf2md options doc =
      .ok (if (parseOptions options).imageMode = "relative"
        then Pdf2mdResult.withImages
          (toMarkdown (parseOptions options).imageMode (parseOptions options).imageSavePath
            (resolveTitle (parseOptions options).pdfTitle doc.metaTitle) doc.pages).2
          (toMarkdown (parseOptions options).imageMode (parseOptions options).imageSavePath
            (resolveTitle (parseOptions options).pdfTitle doc.metaTitle) doc.pages).1.images
        else Pdf2mdResult.pagesOnly
          (toMarkdown (parseOptions options).imageMode (parseOptions options).imageSavePath
            (resolveTitle (parseOptions options).pdfTitle doc.metaTitle) doc.pages).2) ∧
    (toMarkdown (parseOptions options).imageMode (parseOptions options).imageSavePath
      (resolveTitle (parseOptions options).pdfTitle doc.metaTitle) doc.pages).2.length =
      doc.pages.length := by
  refine ⟨?_, toMarkdown_length _ _ _ _⟩
  by_cases hm : (parseOptions options).imageMode = "relative" <;>
    simp [pdf2md, hm]

/-- The item loop does not depend on the image mode, the save path or
the state when no item of a page is an image. -/
theorem mdItems_fold_no_images (m1 m2 t : String) (sp1 sp2 : Option String) (pidx : Nat) :
    ∀ (items : List MdItemE) (st : MdState) (acc : List MdPageItemOut),
      (∀ it ∈ items, isImageItem it = false) →
      items.foldl (processMdItem m1 sp1 t pidx) (st, acc) =
      items.foldl (processMdItem m2 sp2 t pidx) (st, acc) := by
  intro items
  induction items with
  | nil => intro st acc _; rfl
  | cons it its ih =>
    intro st acc h
    cases it with
    | image i => exact absurd (h _ (List.mem_cons_self _ _)) (by simp [isImageItem])
    | block b =>
      simp only [List.foldl_cons, processMdItem]
      exact ih st (acc ++ [MdPageItemOut.block b]) (fun x hx => h x (List.mem_cons_of_mem _ hx))

/-- Claim C8: on a document none of whose pages holds an image record,
the emitted markdown page strings are independent of the image mode and
of the save path. -/
theorem c8_no_images_mode_independent (m1 m2 t : String) (sp1 sp2 : Option String)
    (pages : List MdPageE)
    (h : ∀ p ∈ pages, ∀ it ∈ p.items, isImageItem it = false) :
    (toMarkdown m1 sp1 t pages).2 = (toMarkdown m2 sp2 t pages).2 := by
  suffices hgen : ∀ (ps : List MdPageE) (st : MdState) (acc : List String),
      (∀ p ∈ ps, ∀ it ∈ p.items, isImageItem it = false) →
      (ps.foldl (fun acc page =>
        let r := processMdPage m1 sp1 t acc.1 page
        (r.1, acc.2 ++ [r.2])) (st, acc)) =
      (ps.foldl (fun acc page =>
        let r := processMdPage m2 sp2 t acc.1 page
        (r.1, acc.2 ++ [r.2])) (st, acc)) by
    have := hgen pages initMdState [] h
    simp only [toMarkdown, this]
  intro ps
  induction ps with
  | nil => intro st acc _; rfl
  | cons p ps ih =>
    intro st acc h
    have hp : processMdPage m1 sp1 t st p = processMdPage m2 sp2 t st p := by
      simp only [processMdPage]
      rw [mdItems_fold_no_images m1 m2 t sp1 sp2 p.index p.items _ []
        (h p (List.mem_cons_self _ _))]
    simp only [List.foldl_cons]
    rw [hp]
    exact ih _ _ (fun q hq => h q (List.mem_cons_of_mem _ hq))

/-- Witness for `c8_no_images_mode_independent` on a one-page document
with a single paragraph block, comparing the `base64` and `relative`
modes. -/
theorem c8_no_images_witness :
    (toMarkdown "base64" none "pdf" [⟨0, [.block ⟨"PARAGRAPH", "hello"⟩]⟩]).2 =
    (toMarkdown "relative" (some "out") "pdf" [⟨0, [.block ⟨"PARAGRAPH", "hello"⟩]⟩]).2 :=
  c8_no_images_mode_independent "base64" "relative" "pdf" none (some "out") _ (by decide)

/-- In image mode `none` the image processor touches nothing. -/
theorem processImage_none (sp : Option String) (t : String) (c : Nat)
    (item : ImageItemE) (p : Nat) :
    processImage "none" sp t c item p = ⟨c, none, none, none, none⟩ := rfl

/-- In image mode `save` without a save path the image processor emits
nothing: no markdown, no map entry, no file write, no name. -/
theorem processImage_save_nopath (t : String) (c : Nat) (item : ImageItemE) (p : Nat) :
    ∃ c2, processImage "save" none t c item p = ⟨c2, none, none, none, none⟩ := by
  cases h : item.imageData with
  | none => exact ⟨c, by simp [processImage, h]⟩
  | some d => simp [processImage, h, jsTruthyStr]

/-- The item loop of a `save`-mode run without a save path observably
matches a `none`-mode run. -/
theorem save_nopath_items_fold (t : String) (sp : Option String) (pidx : Nat) :
    ∀ (items : List MdItemE) (st1 st2 : MdState) (acc : List MdPageItemOut),
      st1.obs = st2.obs →
      ((items.foldl (processMdItem "save" none t pidx) (st1, acc)).1.obs =
        (items.foldl (processMdItem "none" sp t pidx) (st2, acc)).1.obs ∧
       (items.foldl (processMdItem "save" none t pidx) (st1, acc)).2 =
        (items.foldl (processMdItem "none" sp t pidx) (st2, acc)).2) := by
  intro items
  induction items with
  | nil => intro st1 st2 acc h; exact ⟨h, rfl⟩
  | cons it its ih =>
    intro st1 st2 acc h
    cases it with
    | block b =>
      simp only [List.foldl_cons, processMdItem]
      exact ih _ _ _ h
    | image i =>
      obtain ⟨c2, hc2⟩ := processImage_save_nopath t st1.counter i pidx
      simp only [List.foldl_cons, processMdItem, hc2, processImage_none]
      apply ih
      have h1 : st1.images = st2.images ∧ st1.names = st2.names ∧ st1.logs = st2.logs ∧
          st1.writes = st2.writes := by
        have := h
        simp only [MdState.obs, Prod.mk.injEq] at this
        exact ⟨this.1, this.2.1, this.2.2.1, this.2.2.2⟩
      simp [MdState.obs, h1.1, h1.2.1, h1.2.2.1, h1.2.2.2]

/-- The page loop of a `save`-mode run without a save path observably
matches a `none`-mode run. -/
theorem save_nopath_pages_fold (t : String) (sp : Option String) :
    ∀ (pages : List MdPageE) (st1 st2 : MdState) (acc : List String),
      st1.obs = st2.obs →
      ((pages.foldl (fun a page =>
          let r := processMdPage "save" none t a.1 page
          (r.1, a.2 ++ [r.2])) (st1, acc)).1.obs =
        (pages.foldl (fun a page =>
          let r := processMdPage "none" sp t a.1 page
          (r.1, a.2 ++ [r.2])) (st2, acc)).1.obs ∧
       (pages.foldl (fun a page =>
          let r := processMdPage "save" none t a.1 page
          (r.1, a.2 ++ [r.2])) (st1, acc)).2 =
        (pages.foldl (fun a page =>
          let r := processMdPage "none" sp t a.1 page
          (r.1, a.2 ++ [r.2])) (st2, acc)).2) := by
  intro pages
  induction pages with
  | nil => intro st1 st2 acc h; exact ⟨h, rfl⟩
  | cons p ps ih =>
    intro st1 st2 acc h
    have hlogs : st1.logs = st2.logs := by
      simp only [MdState.obs, Prod.mk.injEq] at h
      exact h.2.2.1
    have hst1 : ({ st1 with logs := st1.logs ++ pageLogs p } : MdState).obs =
        ({ st2 with logs := st2.logs ++ pageLogs p } : MdState).obs := by
      simp only [MdState.obs, Prod.mk.injEq] at h ⊢
      exact ⟨h.1, h.2.1, by rw [hlogs], h.2.2.2⟩
    have hitems := save_nopath_items_fold t sp p.index p.items _ _ [] hst1
    simp only [List.foldl_cons, processMdPage]
    rw [hitems.2]
    exact ih _ _ _ hitems.1

/-- Claim C2 (amended): when the parsed image mode is `save` and no
save path is configured, no pre-flight error is raised; the conversion
runs to completion and behaves exactly like a run with image mode
`none`, silently dropping every image. -/
theorem c2_save_without_path (options : OptionsE) (doc : ParsedDocE)
    (h1 : (parseOptions options).imageMode = "save")
    (h2 : (parseOptions options).imageSavePath = none) :
    pdf2md options doc = pdf2md { options with imageMode := some "none" } doc := by
  have hcond : ¬ (options.callbacks = none ∧
      (options.metadataParsed ∨ options.pageParsed ∨ options.fontParsed ∨
        options.documentParsed)) := by
    intro hc
    rw [parseOptions, if_pos hc] at h1
    exact absurd h1 (by decide)
  have hpo : parseOptions options =
      { legacyCallbacks := false,
        imageMode := jsOrString options.imageMode "none",
        imageSavePath := jsOrNull options.imageSavePath,
        pdfTitle := jsOrNull options.pdfTitle } := by
    rw [parseOptions, if_neg hcond]
  have hpo2 : parseOptions { options with imageMode := some "none" } =
      { legacyCallbacks := false,
        imageMode := "none",
        imageSavePath := jsOrNull options.imageSavePath,
        pdfTitle := jsOrNull options.pdfTitle } := by
    rw [parseOptions, if_neg hcond]
    rfl
  have hmode : jsOrString options.imageMode "none" = "save" := by rw [hpo] at h1; exact h1
  have hpath : jsOrNull options.imageSavePath = none := by rw [hpo] at h2; exact h2
  have hfold := save_nopath_pages_fold
    (resolveTitle (jsOrNull options.pdfTitle) doc.metaTitle) none doc.pages
    initMdState initMdState [] rfl
  have himg : (toMarkdown "save" none (resolveTitle (jsOrNull options.pdfTitle) doc.metaTitle)
      doc.pages).1.images =
      (toMarkdown "none" none (resolveTitle (jsOrNull options.pdfTitle) doc.metaTitle)
        doc.pages).1.images := by
    have := hfold.1
    simp only [toMarkdown, MdState.obs, Prod.mk.injEq] at this
    exact this.1
  have htexts : (toMarkdown "save" none (resolveTitle (jsOrNull options.pdfTitle) doc.metaTitle)
      doc.pages).2 =
      (toMarkdown "none" none (resolveTitle (jsOrNull options.pdfTitle) doc.metaTitle)
        doc.pages).2 := by
    simpa only [toMarkdown] using hfold.2
  simp only [pdf2md, hpo, hpo2, hmode, hpath]
  rw [if_neg (by decide : ¬ ("save" : String) = "relative"),
    if_neg (by decide : ¬ ("none" : String) = "relative")]
  rw [htexts]

/-- Witness for `c2_save_without_path`: a `save`-mode call without a
path on a one-page document with one valid JPEG image. -/
theorem c2_save_without_path_witness :
    pdf2md ⟨some (), false, false, false, false, some "save", none, some "t"⟩
        ⟨[⟨0, [.image ⟨0, 0, 1, 1, some [255, 216, 0, 0], some "jpg", some "image1"⟩]⟩], none⟩ =
      pdf2md ⟨some (), false, false, false, false, some "none", none, some "t"⟩
        ⟨[⟨0, [.image ⟨0, 0, 1, 1, some [255, 216, 0, 0], some "jpg", some "image1"⟩]⟩], none⟩ :=
  c2_save_without_path _ _ rfl rfl

/-- Counterexample to claim C2 as stated: with image mode `save` and no
save path, the conversion does not fail; it returns a normal result in
which the single valid JPEG image of the page produced no markdown
reference and no emitted name. -/
theorem c2_counterexample :
    pdf2md ⟨some (), false, false, false, false, some "save", none, some "t"⟩
        ⟨[⟨0, [.image ⟨0, 0, 1, 1, some [255, 216, 0, 0], some "jpg", some "image1"⟩]⟩], none⟩ =
      .ok (.pagesOnly [""]) ∧
    (toMarkdown "save" none "t"
        [⟨0, [.image ⟨0, 0, 1, 1, some [255, 216, 0, 0], some "jpg", some "image1"⟩]⟩]).1.names =
      [] :=
  ⟨rfl, rfl⟩

/-- The line loop of `DetectListItems` appends the contributions of
each line. -/
theorem detectListItemsLines_acc (items : List LineE) :
    ∀ acc : List LineE,
      items.foldl (fun acc item => acc ++ processListLine item) acc =
        acc ++ detectListItemsLines items := by
  induction items with
  | nil => intro acc; simp [detectListItemsLines]
  | cons x xs ih =>
    intro acc
    have hx : detectListItemsLines (x :: xs) = processListLine x ++ detectListItemsLines xs := by
      show (x :: xs).foldl (fun acc item => acc ++ processListLine item) [] = _
      rw [List.foldl_cons, ih (([] : List LineE) ++ processListLine x)]
      simp
    rw [List.foldl_cons, ih (acc ++ processListLine x), hx, List.append_assoc]

/-- The line loop of `DetectListItems` distributes over concatenation. -/
theorem detectListItemsLines_append (xs ys : List LineE) :
    detectListItemsLines (xs ++ ys) =
      detectListItemsLines xs ++ detectListItemsLines ys := by
  show (xs ++ ys).foldl (fun acc item => acc ++ processListLine item) [] = _
  rw [List.foldl_append]
  show ys.foldl _ (detectListItemsLines xs) = _
  rw [detectListItemsLines_acc]

/-- Claim C5: an untyped line whose first word is a bullet is tagged
`LIST` in place when the bullet is `-`; for any other bullet the loop
emits the original line marked removed, immediately followed by a
synthetic `LIST` copy whose first word is `-` and whose remaining
words are unchanged. -/
theorem c5_list_expansion (pre post : List LineE) (item : LineE) (w : WordE) (ws : List WordE)
    (htype : item.type = none) (hwords : item.words = w :: ws)
    (hbullet : isListItemCharacter w.string = true) :
    detectListItemsLines (pre ++ item :: post) =
      detectListItemsLines pre ++
      (if w.string = "-" then
        [{ item with annot := some .DETECTED, type := some .LIST }]
      else
        [{ item with annot := some .REMOVED },
         { item with words := { w with string := "-" } :: ws,
                     annot := some .ADDED, type := some .LIST }]) ++
      detectListItemsLines post := by
  rw [detectListItemsLines_append, List.append_assoc]
  congr 1
  have hstep : detectListItemsLines (item :: post) =
      processListLine item ++ detectListItemsLines post := by
    show (item :: post).foldl (fun acc item => acc ++ processListLine item) [] = _
    rw [List.foldl_cons, detectListItemsLines_acc]
    simp
  rw [hstep]
  congr 1
  by_cases hdash : w.string = "-"
  · simp [processListLine, htype, hwords, hdash,
      show isListItemCharacter "-" = true from by decide]
  · simp [processListLine, htype, hwords, hbullet, hdash]

/-- Witness for `c5_list_expansion`: a single line starting with the
bullet `•` expands into the removed original and a `-`-prefixed
`LIST` copy. -/
theorem c5_list_expansion_witness :
    detectListItemsLines
        ([] ++ (⟨0, 0, 4, 2, [⟨"•", none, none⟩, ⟨"x", none, none⟩], none, none⟩ : LineE) :: []) =
      detectListItemsLines [] ++
      (if ("•" : String) = "-" then
        [{ (⟨0, 0, 4, 2, [⟨"•", none, none⟩, ⟨"x", none, none⟩], none, none⟩ : LineE) with
            annot := some .DETECTED, type := some .LIST }]
      else
        [{ (⟨0, 0, 4, 2, [⟨"•", none, none⟩, ⟨"x", none, none⟩], none, none⟩ : LineE) with
            annot := some .REMOVED },
         { (⟨0, 0, 4, 2, [⟨"•", none, none⟩, ⟨"x", none, none⟩], none, none⟩ : LineE) with
            words := ⟨"-", none, none⟩ :: [⟨"x", none, none⟩],
            annot := some .ADDED, type := some .LIST }]) ++
      detectListItemsLines [] :=
  c5_list_expansion [] [] _ ⟨"•", none, none⟩ [⟨"x", none, none⟩] rfl rfl (by decide)

/-- Extensional description of `looksLikeCodeBlock`, spelling out the
JavaScript `null` comparison semantics. -/
theorem looksLikeCodeBlock_iff (minX : Option ℚ) (items : List LineE) (h : ℚ) :
    looksLikeCodeBlock minX items h = true ↔
      (match minX with
       | some m =>
         (∃ it, items = [it] ∧ it.x > m ∧ it.height ≤ h + 1) ∨
         (2 ≤ items.length ∧ ∀ it ∈ items, it.x ≠ m)
       | none =>
         (∃ it, items = [it] ∧ it.x > 0 ∧ it.height ≤ h + 1) ∨ 2 ≤ items.length) := by
  match items with
  | [] =>
    cases minX <;> simp [looksLikeCodeBlock]
  | [it] =>
    cases minX <;> simp [looksLikeCodeBlock, jsGtNull, jsStrictEqNull]
  | a :: b :: rest =>
    cases minX with
    | none => simp [looksLikeCodeBlock, jsStrictEqNull]
    | some m => simp [looksLikeCodeBlock, jsStrictEqNull]

/-- Claim C3 (amended): an untyped block becomes `CODE` exactly under
the single-line or no-line-at-minX rule, where `minX` is the sentinel
minimum of `minXFromBlocks`: when it is present the spec rule applies
with that value; when every line x is at least the 999 sentinel the
minimum is `null` and the JavaScript comparisons degenerate, so a
single line needs only `x > 0` and any block of two or more lines
qualifies. -/
theorem c3_code_detection (h : ℚ) (page : BlockPageE) (j : Nat) (b : BlockE)
    (hj : page.items[j]? = some (.block b)) (hb : b.type = none) :
    ((detectCodePage h page).items[j]? =
      some (.block { b with annot := some .DETECTED, type := some .CODE }) ↔
     (match minXFromBlocks (pageBlocks page) with
      | some m =>
        (∃ it, b.items = [it] ∧ it.x > m ∧ it.height ≤ h + 1) ∨
        (2 ≤ b.items.length ∧ ∀ it ∈ b.items, it.x ≠ m)
      | none =>
        (∃ it, b.items = [it] ∧ it.x > 0 ∧ it.height ≤ h + 1) ∨ 2 ≤ b.items.length)) := by
  rw [← looksLikeCodeBlock_iff (minXFromBlocks (pageBlocks page)) b.items h]
  have hmap : (detectCodePage h page).items[j]? =
      some (if b.type = none ∧ looksLikeCodeBlock (minXFromBlocks (pageBlocks page)) b.items h
        then .block { b with annot := some .DETECTED, type := some .CODE }
        else .block b) := by
    simp only [detectCodePage, List.getElem?_map, hj, Option.map_some']
  rw [hmap]
  constructor
  · intro heq
    by_contra hlooks
    rw [if_neg (fun hc => hlooks hc.2)] at heq
    have hbb := Option.some.inj heq
    injection hbb with hbb2
    have ht := congrArg BlockE.type hbb2
    rw [hb] at ht
    exact Option.noConfusion ht
  · intro hlooks
    rw [if_pos ⟨hb, hlooks⟩]

/-- Witness for `c3_code_detection`: a page whose second block is a
single indented line of body height is marked `CODE`. -/
theorem c3_code_detection_witness :
    ((detectCodePage 10
        ⟨0, [.block ⟨none, none, [⟨0, 0, 8, 10, [], none, none⟩]⟩,
             .block ⟨none, none, [⟨4, -20, 8, 10, [], none, none⟩]⟩]⟩).items[1]? =
      some (.block { (⟨none, none, [⟨4, -20, 8, 10, [], none, none⟩]⟩ : BlockE) with
        annot := some .DETECTED, type := some .CODE }) ↔
     (match minXFromBlocks (pageBlocks
        ⟨0, [.block ⟨none, none, [⟨0, 0, 8, 10, [], none, none⟩]⟩,
             .block ⟨none, none, [⟨4, -20, 8, 10, [], none, none⟩]⟩]⟩) with
      | some m =>
        (∃ it, [(⟨4, -20, 8, 10, [], none, none⟩ : LineE)] = [it] ∧ it.x > m ∧
          it.height ≤ (10 : ℚ) + 1) ∨
        (2 ≤ [(⟨4, -20, 8, 10, [], none, none⟩ : LineE)].length ∧
          ∀ it ∈ [(⟨4, -20, 8, 10, [], none, none⟩ : LineE)], it.x ≠ m)
      | none =>
        (∃ it, [(⟨4, -20, 8, 10, [], none, none⟩ : LineE)] = [it] ∧ it.x > 0 ∧
          it.height ≤ (10 : ℚ) + 1) ∨
        2 ≤ [(⟨4, -20, 8, 10, [], none, none⟩ : LineE)].length)) :=
  c3_code_detection 10 _ 1 _ rfl rfl

/-- Counterexample to claim C3 as stated: on a page whose only block
has two lines at x = 1000, the plain smallest x is 1000 and both lines
sit at it, so the claimed rule says the block is not code; the source
caps the minimum at the 999 sentinel, obtains `null`, and marks the
block `CODE`. -/
theorem c3_counterexample :
    (detectCodePage 10
        ⟨0, [.block ⟨none, none,
          [⟨1000, 0, 8, 10, [], none, none⟩, ⟨1000, -20, 8, 10, [], none, none⟩]⟩]⟩).items =
      [.block ⟨some .CODE, some .DETECTED,
        [⟨1000, 0, 8, 10, [], none, none⟩, ⟨1000, -20, 8, 10, [], none, none⟩]⟩] ∧
    specMinXFromBlocks (pageBlocks
        ⟨0, [.block ⟨none, none,
          [⟨1000, 0, 8, 10, [], none, none⟩, ⟨1000, -20, 8, 10, [], none, none⟩]⟩]⟩) =
      some 1000 ∧
    ¬ specC3CodeCondition 1000 10
        [⟨1000, 0, 8, 10, [], none, none⟩, ⟨1000, -20, 8, 10, [], none, none⟩] := by
  have hmin : minXFromBlocks (pageBlocks
      ⟨0, [.block ⟨none, none,
        [⟨1000, 0, 8, 10, [], none, none⟩, ⟨1000, -20, 8, 10, [], none, none⟩]⟩]⟩) = none := by
    have h1 : min (999 : ℚ) 1000 = 999 := min_eq_left (by norm_num)
    simp [minXFromBlocks, pageBlocks, h1]
  refine ⟨?_, ?_, ?_⟩
  · simp [detectCodePage, hmin, looksLikeCodeBlock, jsStrictEqNull]
  · simp [specMinXFromBlocks, pageBlocks]
  · rintro (⟨hlen, -⟩ | ⟨-, hall⟩)
    · simp at hlen
    · exact hall ⟨1000, 0, 8, 10, [], none, none⟩ (List.mem_cons_self _ _) rfl

theorem assignOne_typed (levels : List (ℚ × Nat)) :
    ∀ it : LineE, it.type ≠ none → assignOne levels it = it := by
  induction levels with
  | nil => intro it _; rfl
  | cons kl ls ih =>
    intro it hty
    show assignOne ls (if it.type = none ∧ |it.height - kl.1| < 1 / 2 then _ else it) = it
    rw [if_neg (fun hc => hty hc.1)]
    exact ih it hty

theorem assignOne_first_match (maxL : Nat) :
    ∀ (sorted : List (ℚ × ℚ)) (i0 : Nat) (it : LineE), it.type = none →
      assignOne (levelsFrom maxL i0 sorted) it =
        (match firstMatchIdx (fun sr => |it.height - sr.1| < 1 / 2) sorted with
         | some j =>
           { it with
              type := some (headlineByLevel (min (i0 + j + 1) maxL)),
              annot := some AnnotationE.DETECTED }
         | none => it) := by
  intro sorted
  induction sorted with
  | nil => intro i0 it _; rfl
  | cons sr rest ih =>
    intro i0 it hty
    by_cases hm : |it.height - sr.1| < 1 / 2
    · show assignOne (levelsFrom maxL (i0 + 1) rest)
        (if it.type = none ∧ |it.height - sr.1| < 1 / 2 then _ else it) = _
      rw [if_pos ⟨hty, hm⟩]
      rw [assignOne_typed _ _ (by simp)]
      have hfm : firstMatchIdx (fun sr => |it.height - sr.1| < 1 / 2) (sr :: rest) =
          some 0 := by
        rw [firstMatchIdx, if_pos hm]
      rw [hfm]
    · show assignOne (levelsFrom maxL (i0 + 1) rest)
        (if it.type = none ∧ |it.height - sr.1| < 1 / 2 then _ else it) = _
      rw [if_neg (fun hc => hm hc.2)]
      rw [ih (i0 + 1) it hty]
      have hfm : firstMatchIdx (fun sr => |it.height - sr.1| < 1 / 2) (sr :: rest) =
          (firstMatchIdx (fun sr => |it.height - sr.1| < 1 / 2) rest).map Nat.succ := by
        rw [firstMatchIdx, if_neg hm]
      rw [hfm]
      cases hf : firstMatchIdx (fun sr => |it.height - sr.1| < 1 / 2) rest with
      | none => simp
      | some j =>
        simp only [Option.map_some']
        have harith : i0 + 1 + j + 1 = i0 + (j + 1) + 1 := by omega
        rw [harith]

theorem assignPass_map (levels : List (ℚ × Nat)) :
    ∀ items : List LineE, assignPass levels items = items.map (assignOne levels) := by
  induction levels with
  | nil =>
    intro items
    have hfun : assignOne ([] : List (ℚ × Nat)) = id := funext (fun it => rfl)
    simp [assignPass, hfun]
  | cons kl ls ih =>
    intro items
    have h1 : assignPass (kl :: ls) items =
        assignPass ls (items.map (fun it =>
          if it.type = none ∧ |it.height - kl.1| < 1 / 2 then
            { it with type := some (headlineByLevel kl.2), annot := some AnnotationE.DETECTED }
          else it)) := rfl
    rw [h1, ih, List.map_map]
    congr 1

theorem c4_header_level_assignment (candidates : List LineE) (h : ℚ) :
    detectHeaderLevels candidates h =
      candidates.map (fun it =>
        if it.type = none then
          match firstMatchIdx (fun sr => |it.height - sr.1| < 1 / 2)
              (sortedSizes (clusterKeys (candidates.filter (fun x => x.type = none))) h) with
          | some i =>
            { it with
                type := some (headlineByLevel (min (i + 1) headerMaxLevel)),
                annot := some AnnotationE.DETECTED }
          | none => it
        else it) := by
  rw [detectHeaderLevels, assignPass_map]
  apply List.map_congr_left
  intro it _
  by_cases hty : it.type = none
  · rw [if_pos hty]
    rw [show fontSizeToLevel (candidates.filter (fun x => x.type = none)) h headerMaxLevel =
      levelsFrom headerMaxLevel 0
        (sortedSizes (clusterKeys (candidates.filter (fun x => x.type = none))) h) from rfl]
    rw [assignOne_first_match headerMaxLevel _ 0 it hty]
    simp only [Nat.zero_add]
  · rw [if_neg hty]
    exact assignOne_typed _ it hty


set_option maxHeartbeats 2000000 in
/-- Counterexample to claim C4 as stated: with body height 10 and five
retained candidates of heights 20, 18, 16, 14 and 12, five fontSize
clusters form; the claim says the fifth cluster gets no header level,
but the level assignment clamps `index + 1` at the maximum and the
fifth candidate receives H4. -/
theorem c4_counterexample :
    sortedSizes (clusterKeys
        [⟨0, 0, 0, 20, [], none, none⟩, ⟨0, 0, 0, 18, [], none, none⟩,
         ⟨0, 0, 0, 16, [], none, none⟩, ⟨0, 0, 0, 14, [], none, none⟩,
         ⟨0, 0, 0, 12, [], none, none⟩]) 10 =
      [(20, 2), (18, 9 / 5), (16, 8 / 5), (14, 7 / 5), (12, 6 / 5)] ∧
    (detectHeaderLevels
        [⟨0, 0, 0, 20, [], none, none⟩, ⟨0, 0, 0, 18, [], none, none⟩,
         ⟨0, 0, 0, 16, [], none, none⟩, ⟨0, 0, 0, 14, [], none, none⟩,
         ⟨0, 0, 0, 12, [], none, none⟩] 10).map (fun it => it.type) =
      [some .H1, some .H2, some .H3, some .H4, some .H4] := by
  constructor
  · norm_num [sortedSizes, sortQuotDesc, insertQuotDesc, clusterKeys, fontSizeGate,
      List.foldl, List.any, abs_sub_lt_iff]
  · norm_num [detectHeaderLevels, assignPass, assignOne, fontSizeToLevel, levelsFrom,
      sortedSizes, sortQuotDesc, insertQuotDesc, clusterKeys, headlineByLevel, fontSizeGate,
      headerMaxLevel, List.filter, List.foldl, List.any, abs_sub_lt_iff]

theorem digitChar_isDigit {d : Nat} (h : d < 10) : (digitChar d).isDigit = true := by
  interval_cases d <;> decide

theorem digitChar_toNat {d : Nat} (h : d < 10) : (digitChar d).toNat = 48 + d := by
  interval_cases d <;> decide

theorem digitsVal_append (xs : List Char) (c : Char) :
    digitsVal (xs ++ [c]) = 10 * digitsVal xs + (c.toNat - 48) := by
  simp [digitsVal, List.foldl_append]

theorem natDigitsAux_spec :
    ∀ (fuel n : Nat), n < fuel →
      natDigitsAux fuel n ≠ [] ∧ (∀ c ∈ natDigitsAux fuel n, c.isDigit = true) ∧
      digitsVal (natDigitsAux fuel n) = n := by
  intro fuel
  induction fuel with
  | zero => intro n hn; omega
  | succ f ih =>
    intro n hn
    by_cases h10 : n < 10
    · refine ⟨by simp [natDigitsAux, h10], ?_, ?_⟩
      · intro c hc
        simp [natDigitsAux, h10] at hc
        rw [hc]
        exact digitChar_isDigit h10
      · simp [natDigitsAux, h10, digitsVal, digitChar_toNat h10]
    · have hdiv : n / 10 < f := by
        have h1 : n / 10 < n := Nat.div_lt_self (by omega) (by omega)
        omega
      obtain ⟨hne, hdig, hval⟩ := ih (n / 10) hdiv
      rw [show natDigitsAux (f + 1) n =
        natDigitsAux f (n / 10) ++ [digitChar (n % 10)] from by simp [natDigitsAux, h10]]
      refine ⟨by simp, ?_, ?_⟩
      · intro c hc
        rcases List.mem_append.mp hc with hc1 | hc2
        · exact hdig c hc1
        · rw [List.mem_singleton.mp hc2]
          exact digitChar_isDigit (Nat.mod_lt _ (by omega))
      · rw [digitsVal_append, hval, digitChar_toNat (Nat.mod_lt _ (by omega))]
        omega

theorem natToStr_data_ne (n : Nat) : (natToStr n).data ≠ [] :=
  (natDigitsAux_spec (n + 1) n (by omega)).1

theorem natToStr_ne_empty (n : Nat) : natToStr n ≠ "" := by
  intro he
  exact natToStr_data_ne n (by rw [he])

theorem natToStr_digits (n : Nat) : ∀ c ∈ (natToStr n).data, c.isDigit = true :=
  (natDigitsAux_spec (n + 1) n (by omega)).2.1

theorem natToStr_inj {m n : Nat} (h : natToStr m = natToStr n) : m = n := by
  have hm := (natDigitsAux_spec (m + 1) m (by omega)).2.2
  have hn := (natDigitsAux_spec (n + 1) n (by omega)).2.2
  have hd : natDigitsAux (m + 1) m = natDigitsAux (n + 1) n := congrArg String.data h
  rw [hd, hn] at hm
  exact hm.symm
theorem digits_unique_parse :
    ∀ (xs ys : List Char) (a b : Char) (as bs : List Char),
      (∀ c ∈ xs, c.isDigit = true) → (∀ c ∈ ys, c.isDigit = true) →
      a.isDigit = false → b.isDigit = false →
      xs ++ a :: as = ys ++ b :: bs → xs = ys ∧ a = b ∧ as = bs := by
  intro xs
  induction xs with
  | nil =>
    intro ys a b as bs _ hys ha hb heq
    cases ys with
    | nil =>
      simp at heq
      exact ⟨rfl, heq.1, heq.2⟩
    | cons y ys =>
      simp at heq
      rw [heq.1] at ha
      rw [hys y (List.mem_cons_self _ _)] at ha
      exact absurd ha (by simp)
  | cons x xs ih =>
    intro ys a b as bs hxs hys ha hb heq
    cases ys with
    | nil =>
      simp at heq
      rw [← heq.1] at hb
      rw [hxs x (List.mem_cons_self _ _)] at hb
      exact absurd hb (by simp)
    | cons y ys =>
      simp at heq
      obtain ⟨hxy, heq2⟩ := heq
      obtain ⟨h1, h2, h3⟩ := ih ys a b as bs
        (fun c hc => hxs c (List.mem_cons_of_mem _ hc))
        (fun c hc => hys c (List.mem_cons_of_mem _ hc)) ha hb heq2
      exact ⟨by rw [hxy, h1], h2, h3⟩

theorem nameOf_counter_inj (t : String) (k1 j1 k2 j2 : Nat) (e1 e2 : String)
    (h : nameOf t k1 j1 e1 = nameOf t k2 j2 e2) : k1 = k2 := by
  have hd := congrArg String.data h
  simp only [nameOf, String.data_append, List.append_assoc, List.cons_append,
    List.nil_append] at hd
  have hd2 := List.append_cancel_left hd
  simp only [List.cons.injEq, true_and] at hd2
  have hd3 : (natToStr k1).data ++ '_' :: 'p' :: ((natToStr j1).data ++ '.' :: e1.data) =
      (natToStr k2).data ++ '_' :: 'p' :: ((natToStr j2).data ++ '.' :: e2.data) := by
    simpa using hd2
  have hu := digits_unique_parse (natToStr k1).data (natToStr k2).data '_' '_' _ _
    (natToStr_digits k1) (natToStr_digits k2) (by decide) (by decide) hd3
  exact natToStr_inj (String.ext hu.1)

theorem nameOf_pattern (t : String) (k j : Nat) (ext : String)
    (hext : ext = "png" ∨ ext = "jpg") : ImageNamePattern t (nameOf t k j ext) := by
  refine ⟨natToStr k, natToStr j, ext, rfl, natToStr_ne_empty k, natToStr_digits k,
    natToStr_ne_empty j, natToStr_digits j, hext⟩

theorem processImage_name_cases (mode : String) (sp : Option String) (t : String)
    (c : Nat) (item : ImageItemE) (pidx : Nat) :
    ((processImage mode sp t c item pidx).name = none ∧
      ((processImage mode sp t c item pidx).counter = c ∨
       (processImage mode sp t c item pidx).counter = c + 1)) ∨
    (∃ ext, (ext = "png" ∨ ext = "jpg") ∧
      (processImage mode sp t c item pidx).name = some (nameOf t (c + 1) (pidx + 1) ext) ∧
      (processImage mode sp t c item pidx).counter = c + 1) := by
  by_cases h0 : mode = "none"
  · rw [processImage, if_pos h0]
    exact Or.inl ⟨rfl, Or.inl rfl⟩
  · rw [processImage, if_neg h0]
    cases hid : item.imageData with
    | none => exact Or.inl ⟨rfl, Or.inl rfl⟩
    | some d =>
      simp only
      split_ifs with h1 h2 h3 h4 h5 <;>
        first
          | exact Or.inl ⟨rfl, Or.inr rfl⟩
          | exact Or.inr ⟨_, by simp, rfl, rfl⟩

/-- Counter monotonicity of the name invariant. -/
theorem NamesInv_mono {t : String} {c c' : Nat} {names : List String}
    (hcc : c ≤ c') (h : NamesInv t c names) : NamesInv t c' names := by
  obtain ⟨meta, h1, h2, h3⟩ := h
  exact ⟨meta, h1, h2, fun m hm => ⟨le_trans (h3 m hm).1 hcc, (h3 m hm).2⟩⟩

/-- Appending a fresh name with the next counter value preserves the
name invariant. -/
theorem NamesInv_append {t : String} {c : Nat} {names : List String} {pidx : Nat}
    {ext : String} (hext : ext = "png" ∨ ext = "jpg") (h : NamesInv t c names) :
    NamesInv t (c + 1) (names ++ [nameOf t (c + 1) (pidx + 1) ext]) := by
  obtain ⟨meta, h1, h2, h3⟩ := h
  refine ⟨meta ++ [(c + 1, pidx + 1, ext)], ?_, ?_, ?_⟩
  · simp [h1]
  · rw [List.map_append]
    refine List.pairwise_append.mpr ⟨h2, by simp, ?_⟩
    intro a ha b hb
    simp only [List.map_cons, List.map_nil, List.mem_singleton] at hb
    subst hb
    simp only [List.mem_map] at ha
    obtain ⟨m, hm, rfl⟩ := ha
    have := (h3 m hm).1
    omega
  · intro m hm
    rcases List.mem_append.mp hm with hmem | hmem
    · exact ⟨le_trans (h3 m hmem).1 (by omega), (h3 m hmem).2⟩
    · rw [List.mem_singleton.mp hmem]
      exact ⟨le_refl _, hext⟩

/-- One item step preserves the name invariant. -/
theorem processMdItem_namesInv (mode : String) (sp : Option String) (t : String)
    (pidx : Nat) (st : MdState) (acc : List MdPageItemOut) (item : MdItemE)
    (h : NamesInv t st.counter st.names) :
    NamesInv t (processMdItem mode sp t pidx (st, acc) item).1.counter
      (processMdItem mode sp t pidx (st, acc) item).1.names := by
  cases item with
  | block b => exact h
  | image i =>
    rcases processImage_name_cases mode sp t st.counter i pidx with
      ⟨hn, hc⟩ | ⟨ext, hext, hn, hc⟩
    · simp only [processMdItem, hn, Option.toList_none, List.append_nil]
      rcases hc with hc | hc <;> rw [hc]
      · exact h
      · exact NamesInv_mono (by omega) h
    · simp only [processMdItem, hn, hc, Option.toList_some]
      exact NamesInv_append hext h

/-- The item loop preserves the name invariant. -/
theorem mdItemsFold_namesInv (mode : String) (sp : Option String) (t : String) (pidx : Nat) :
    ∀ (items : List MdItemE) (st : MdState) (acc : List MdPageItemOut),
      NamesInv t st.counter st.names →
      NamesInv t (items.foldl (processMdItem mode sp t pidx) (st, acc)).1.counter
        (items.foldl (processMdItem mode sp t pidx) (st, acc)).1.names := by
  intro items
  induction items with
  | nil => intro st acc h; exact h
  | cons it its ih =>
    intro st acc h
    rw [List.foldl_cons]
    exact ih _ _ (processMdItem_namesInv mode sp t pidx st acc it h)

/-- The page loop preserves the name invariant. -/
theorem toMarkdown_namesInv (mode : String) (sp : Option String) (t : String)
    (pages : List MdPageE) :
    NamesInv t (toMarkdown mode sp t pages).1.counter (toMarkdown mode sp t pages).1.names := by
  suffices hgen : ∀ (ps : List MdPageE) (st : MdState) (acc : List String),
      NamesInv t st.counter st.names →
      NamesInv t (ps.foldl (fun a page =>
          let r := processMdPage mode sp t a.1 page
          (r.1, a.2 ++ [r.2])) (st, acc)).1.counter
        (ps.foldl (fun a page =>
          let r := processMdPage mode sp t a.1 page
          (r.1, a.2 ++ [r.2])) (st, acc)).1.names by
    exact hgen pages initMdState [] ⟨[], rfl, by simp, by simp⟩
  intro ps
  induction ps with
  | nil => intro st acc h; exact h
  | cons p ps ih =>
    intro st acc h
    rw [List.foldl_cons]
    exact ih _ _ (mdItemsFold_namesInv mode sp t p.index p.items _ [] h)

/-- The name invariant yields distinctness and the name pattern. -/
theorem namesInv_distinct_pattern {t : String} {c : Nat} {names : List String}
    (h : NamesInv t c names) :
    names.Pairwise (· ≠ ·) ∧ ∀ name ∈ names, ImageNamePattern t name := by
  obtain ⟨meta, rfl, h2, h3⟩ := h
  constructor
  · have hm : meta.Pairwise (fun m1 m2 => m1.1 < m2.1) := (List.pairwise_map).mp h2
    refine (List.pairwise_map).mpr (hm.imp ?_)
    intro m1 m2 hlt heq
    exact absurd (nameOf_counter_inj t m1.1 m1.2.1 m2.1 m2.2.1 m1.2.2 m2.2.2 heq)
      (Nat.ne_of_lt hlt)
  · intro name hname
    simp only [List.mem_map] at hname
    obtain ⟨m, hm, rfl⟩ := hname
    exact nameOf_pattern t m.1 m.2.1 m.2.2 (h3 m hm).2

/-- Claim C7: in every image mode other than `none`, the image names
emitted over the whole document are pairwise distinct and each matches
the pattern `{prefix}_image digits _p digits .(png|jpg)`, with the
prefix resolved from the caller title, the metadata title or `pdf`. -/
theorem c7_image_names (options : OptionsE) (doc : ParsedDocE)
    (_hmode : (parseOptions options).imageMode ≠ "none") :
    (toMarkdown (parseOptions options).imageMode (parseOptions options).imageSavePath
        (resolveTitle (parseOptions options).pdfTitle doc.metaTitle) doc.pages).1.names.Pairwise
      (· ≠ ·) ∧
    ∀ name ∈ (toMarkdown (parseOptions options).imageMode (parseOptions options).imageSavePath
        (resolveTitle (parseOptions options).pdfTitle doc.metaTitle) doc.pages).1.names,
      ImageNamePattern (resolveTitle (parseOptions options).pdfTitle doc.metaTitle) name :=
  namesInv_distinct_pattern
    (toMarkdown_namesInv (parseOptions options).imageMode (parseOptions options).imageSavePath
      (resolveTitle (parseOptions options).pdfTitle doc.metaTitle) doc.pages)

/-- Witness for `c7_image_names`: a base64-mode run over a one-page
document with one valid PNG image. -/
theorem c7_image_names_witness :
    (toMarkdown
        (parseOptions ⟨some (), false, false, false, false, some "base64", none, some "T"⟩).imageMode
        (parseOptions ⟨some (), false, false, false, false, some "base64", none, some "T"⟩).imageSavePath
        (resolveTitle
          (parseOptions ⟨some (), false, false, false, false, some "base64", none, some "T"⟩).pdfTitle
          (⟨[⟨0, [.image ⟨0, 0, 1, 1, some [137, 80, 78, 71], some "png", some "image1"⟩]⟩],
            none⟩ : ParsedDocE).metaTitle)
        (⟨[⟨0, [.image ⟨0, 0, 1, 1, some [137, 80, 78, 71], some "png", some "image1"⟩]⟩],
          none⟩ : ParsedDocE).pages).1.names.Pairwise (· ≠ ·) ∧
    ∀ name ∈ (toMarkdown
        (parseOptions ⟨some (), false, false, false, false, some "base64", none, some "T"⟩).imageMode
        (parseOptions ⟨some (), false, false, false, false, some "base64", none, some "T"⟩).imageSavePath
        (resolveTitle
          (parseOptions ⟨some (), false, false, false, false, some "base64", none, some "T"⟩).pdfTitle
          (⟨[⟨0, [.image ⟨0, 0, 1, 1, some [137, 80, 78, 71], some "png", some "image1"⟩]⟩],
            none⟩ : ParsedDocE).metaTitle)
        (⟨[⟨0, [.image ⟨0, 0, 1, 1, some [137, 80, 78, 71], some "png", some "image1"⟩]⟩],
          none⟩ : ParsedDocE).pages).1.names,
      ImageNamePattern
        (resolveTitle
          (parseOptions ⟨some (), false, false, false, false, some "base64", none, some "T"⟩).pdfTitle
          (⟨[⟨0, [.image ⟨0, 0, 1, 1, some [137, 80, 78, 71], some "png", some "image1"⟩]⟩],
            none⟩ : ParsedDocE).metaTitle) name :=
  c7_image_names ⟨some (), false, false, false, false, some "base64", none, some "T"⟩
    ⟨[⟨0, [.image ⟨0, 0, 1, 1, some [137, 80, 78, 71], some "png", some "image1"⟩]⟩], none⟩
    (by decide)

end PdfToMd
